import Mathlib

/-!
Verification development for the zarr_checksum repository.

The file shallowly embeds `src/zarr_checksum/calculator.py`:
`yield_files_s3`, `yield_files_local` and `compute_zarr_checksum`.
External collaborators (the S3 client listing, the local filesystem,
`hashlib.md5`, python `pathlib` and generators) are embedded at the
granularity the code observes them: an S3 listing is the finite list of
objects whose key string-prefix-matches the request, the filesystem is a
root-existence flag plus the file contents enumerated by the store walk,
and the MD5 primitive is an arbitrary function of the full byte sequence
(its `update`/`hexdigest` protocol is embedded exactly: `update` appends
bytes, `hexdigest` applies the function to everything accumulated).

The checksum tree (`zarr_checksum/tree.py`, imported by the calculator but
not part of the provided sources) is modelled from the specification, see
the doc comments marked "Modelled from the spec".
-/

/-- Errors a python run can surface: `ValueError` (raised by
`Path.relative_to`) and a plain `Exception` carrying a message. -/
inductive PyError where
  | valueError : PyError
  | exception : String → PyError
deriving DecidableEq

instance {ε α : Type} [DecidableEq ε] [DecidableEq α] : DecidableEq (Except ε α) := fun a b =>
  match a, b with
  | .error e, .error f => decidable_of_iff (e = f) (by simp)
  | .error _, .ok _ => isFalse (fun h => Except.noConfusion h)
  | .ok _, .error _ => isFalse (fun h => Except.noConfusion h)
  | .ok a, .ok b => decidable_of_iff (a = b) (by simp)

/-- Run a fallible function over a list, stopping at the first error.
This is how a python generator that raises mid-iteration is consumed. -/
def exceptMap {α β ε : Type} (f : α → Except ε β) : List α → Except ε (List β)
  | [] => .ok []
  | x :: xs =>
    match f x with
    | .error e => .error e
    | .ok y =>
      match exceptMap f xs with
      | .error e => .error e
      | .ok ys => .ok (y :: ys)

/-- Split a character list at every slash character (python
`str.split("/")` on the underlying characters). -/
def splitSegsAux (cur : List Char) : List Char → List (List Char)
  | [] => [cur.reverse]
  | c :: cs => if c == '/' then cur.reverse :: splitSegsAux [] cs else splitSegsAux (c :: cur) cs

/-- A python `pathlib.PurePosixPath`: an absolute-anchor flag plus the
normalized segment list.  Pathlib drops empty segments (duplicate or
trailing slashes) and single-dot segments, and keeps `..` segments. -/
structure PurePath where
  absolute : Bool
  parts : List String
deriving DecidableEq

/-- Parse a string into a `PurePath`, following pathlib normalization:
anchor from a leading slash, segments with `""` and `"."` removed. -/
def pathParse (s : String) : PurePath :=
  { absolute := match s.data with | c :: _ => c == '/' | [] => false
    parts := ((splitSegsAux [] s.data).map (fun cs => String.mk cs)).filter
      (fun seg => !(seg == "" || seg == ".")) }

/-- Python `PurePath.relative_to`: succeeds when the anchors agree and the
other path's segments are a prefix of this path's segments, returning the
remaining segments as a relative path; raises `ValueError` otherwise. -/
def relativeTo (p q : PurePath) : Except PyError PurePath :=
  if (p.absolute == q.absolute) && q.parts.isPrefixOf p.parts then
    .ok { absolute := false, parts := p.parts.drop q.parts.length }
  else .error .valueError

/-- Python `str.strip('"')`: remove every leading and trailing
double-quote character. -/
def stripQuotes (s : String) : String :=
  String.mk (((s.data.dropWhile (fun c => c == '"')).reverse.dropWhile
    (fun c => c == '"')).reverse)

/-- Boolean string-prefix test on the underlying characters, matching how
S3 `list_objects_v2` selects keys for a requested key prefix. -/
def startsList : List Char → List Char → Bool
  | [], _ => true
  | _ :: _, [] => false
  | a :: as, b :: bs => a == b && startsList as bs

/-- `startsList` lifted to strings. -/
def strStarts (p s : String) : Bool := startsList p.data s.data

/-- Does the string end with a slash character? -/
def endsSlash (p : String) : Bool :=
  match p.data.getLast? with
  | some c => c == '/'
  | none => false

/-- Python `os.path.join(p, "")`: appends a slash unless `p` is empty or
already ends with one. -/
def joinEmpty (p : String) : String :=
  if p = "" then "" else if endsSlash p then p else p ++ "/"

/-- One leaf record produced by a file source: the record passed to
`ZarrChecksumTree.add_leaf` (`path`, `size`, `digest`). -/
structure ChecksummedFile where
  path : PurePath
  size : Nat
  digest : String
deriving DecidableEq

/-- One object of the S3 bucket as the listing reports it: key, byte
size, and the ETag string (which S3 wraps in double quotes, and which for
multipart uploads is not a plain content hash). -/
structure S3Object where
  key : String
  size : Nat
  etag : String
deriving DecidableEq

/-- Outcome of a full `yield_files_s3` run: whether the empty-prefix
warning was printed, and either the files yielded or the error raised. -/
structure S3Run where
  warned : Bool
  result : Except PyError (List ChecksummedFile)
deriving DecidableEq

/-- Build one `ChecksummedFile` from a listed object, as the generator
body does: path is `Path(key).relative_to(prefix)` (which can raise
`ValueError`), size is the reported size, digest is the ETag with
surrounding quotes stripped. -/
def s3File (pfx : String) (o : S3Object) : Except PyError ChecksummedFile :=
  match relativeTo (pathParse o.key) (pathParse pfx) with
  | .error e => .error e
  | .ok p => .ok { path := p, size := o.size, digest := stripQuotes o.etag }

/-- `yield_files_s3` over the bucket contents `objects`: the existence
probe lists keys under `os.path.join(prefix, "")`; when it finds nothing
the run warns and yields nothing, otherwise the main listing (raw
`prefix`) is mapped through the generator body. -/
def yield_files_s3 (objects : List S3Object) (pfx : String) : S3Run :=
  if (objects.filter (fun o => strStarts (joinEmpty pfx) o.key)) = [] then
    { warned := true, result := .ok [] }
  else
    { warned := false,
      result := exceptMap (s3File pfx) (objects.filter (fun o => strStarts pfx o.key)) }

/-- The local directory handed to `yield_files_local`: whether
`root_path.exists()` holds, and the relative key and raw byte content of
every file the `NestedDirectoryStore` walk enumerates (`stat().st_size`
of a file is the length of its content). -/
structure LocalStore where
  present : Bool
  files : List (String × List Nat)
deriving DecidableEq

/-- State of a `hashlib.md5()` object: the bytes fed so far. -/
def md5Init : List Nat := []

/-- `md5.update(chunk)`: appends the chunk to the accumulated bytes. -/
def md5Update (st : List Nat) (chunk : List Nat) : List Nat := st ++ chunk

/-- The `while chunk := f.read(8192)` loop: the sequence of non-empty
chunks the file content is read in. -/
def readChunks (c : List Nat) : List (List Nat) :=
  match c with
  | [] => []
  | x :: xs => (x :: xs).take 8192 :: readChunks ((x :: xs).drop 8192)
termination_by c.length
decreasing_by simp [List.length_drop]; omega

/-- Digest of one file as the code computes it: feed each 8192-byte chunk
to `update`, then take `hexdigest` — i.e. apply the hash function
`md5Hex` to the accumulated bytes. -/
def fileDigest (md5Hex : List Nat → String) (content : List Nat) : String :=
  md5Hex ((readChunks content).foldl md5Update md5Init)

/-- Body of `yield_files_local`: fail if the root does not exist, else
yield one record per enumerated file with its stat size and streamed MD5
digest.  `md5Hex` is the MD5 primitive as a function of the full byte
sequence. -/
def yield_files_local (md5Hex : List Nat → String) (d : LocalStore) :
    Except PyError (List ChecksummedFile) :=
  if d.present then
    .ok (d.files.map (fun pc =>
      { path := pathParse pc.1, size := pc.2.length, digest := fileDigest md5Hex pc.2 }))
  else .error (.exception "Path does not exist")

/-- A python generator object: its body runs when iteration starts, not
when the generator function is called. -/
structure PyGen where
  run : Except PyError (List ChecksummedFile)

/-- Calling the generator function `yield_files_local(directory)`: since
the body contains `yield`, the call itself only builds a generator object
and raises nothing; the body (including the existence check) runs on the
first iteration. -/
def yield_files_local_gen (md5Hex : List Nat → String) (d : LocalStore) :
    Except PyError PyGen :=
  .ok { run := yield_files_local md5Hex d }

/-- Modelled from the spec: the error kinds of the checksum tree
(`zarr_checksum/tree.py` is not part of the provided sources).
`DuplicatePathError` carries the offending path. -/
inductive ZarrError where
  | duplicatePath : List String → ZarrError
deriving DecidableEq

/-- Modelled from the spec: one leaf record as the core consumes it —
`path` an ordered sequence of non-empty segments relative to the store
root, `size` a byte count, `digest` a content-hash string. -/
structure Leaf where
  path : List String
  size : Nat
  digest : String
deriving DecidableEq

/-- Lexicographic order on segment paths (byte-wise on each segment),
used to put leaves into the canonical order the encoder mandates. -/
def pathLe : List String → List String → Bool
  | [], _ => true
  | _ :: _, [] => false
  | a :: as, b :: bs =>
    if a < b then true
    else if b < a then false
    else pathLe as bs

/-- `pathLe` on the paths of two leaves. -/
def leafLe (a b : Leaf) : Bool := pathLe a.path b.path

/-- Insert a leaf into a list sorted by `leafLe`. -/
def insertLeaf (x : Leaf) : List Leaf → List Leaf
  | [] => [x]
  | y :: ys => if leafLe x y then x :: y :: ys else y :: insertLeaf x ys

/-- Sort leaves by their path (insertion sort). -/
def sortLeaves (l : List Leaf) : List Leaf := l.foldr insertLeaf []

/-- Modelled from the spec: the resolved value of a directory node —
digest plus aggregate statistics. -/
structure Resolved where
  digest : String
  total_size : Nat
  total_file_count : Nat
deriving DecidableEq

/-- Modelled from the spec: canonical serialization of one file entry of
a directory manifest (fixed field order: name, size, digest). -/
def encodeFileEntry (n : String) (sz : Nat) (dg : String) : String :=
  "F(" ++ n ++ "," ++ toString sz ++ "," ++ dg ++ ")"

/-- Modelled from the spec: canonical serialization of one subdirectory
entry (fixed field order: name, total size, digest, file count). -/
def encodeDirEntry (n : String) (r : Resolved) : String :=
  "D(" ++ n ++ "," ++ toString r.total_size ++ "," ++ r.digest ++ ","
    ++ toString r.total_file_count ++ ")"

/-- Insert a (name, serialized entry) pair into a name-sorted entry list. -/
def insertEntry (x : String × String) : List (String × String) → List (String × String)
  | [] => [x]
  | y :: ys => if x.1 ≤ y.1 then x :: y :: ys else y :: insertEntry x ys

/-- Sort manifest entries by name. -/
def sortEntries (l : List (String × String)) : List (String × String) :=
  l.foldr insertEntry []

/-- Modelled from the spec: `CanonicalEncoder.encode` — build the
combined, sorted-by-name manifest of file and subdirectory entries,
serialize it into one versioned canonical byte string, and aggregate
sizes and counts.  The spec leaves the hash primitive that reduces the
canonical string open, so the digest is the canonical string itself (an
injective stand-in for the unspecified fixed hash). -/
def encode (files : List (String × Nat × String)) (dirs : List (String × Resolved)) :
    Resolved :=
  { digest := "v1|" ++ String.join
      ((sortEntries
        (files.map (fun f => (f.1, encodeFileEntry f.1 f.2.1 f.2.2))
          ++ dirs.map (fun d => (d.1, encodeDirEntry d.1 d.2)))).map Prod.snd)
    total_size := files.foldr (fun f acc => f.2.1 + acc) 0
      + dirs.foldr (fun d acc => d.2.total_size + acc) 0
    total_file_count := files.length
      + dirs.foldr (fun d acc => d.2.total_file_count + acc) 0 }

/-- File entries of the current node: leaves whose whole remaining path
is one segment, giving (name, size, digest). -/
def fileEntries (leaves : List Leaf) : List (String × Nat × String) :=
  (leaves.filter (fun l => l.path.length == 1)).map
    (fun l => (l.path.headD "", l.size, l.digest))

/-- Names of the subdirectories of the current node: first segments of
the leaves that lie deeper, without duplicates. -/
def dirNames (leaves : List Leaf) : List String :=
  ((leaves.filter (fun l => decide (2 ≤ l.path.length))).map
    (fun l => l.path.headD "")).dedup

/-- Leaves of the subdirectory `n` of the current node, re-rooted one
level down. -/
def subLeaves (leaves : List Leaf) (n : String) : List Leaf :=
  ((leaves.filter (fun l => decide (2 ≤ l.path.length))).filter
    (fun l => l.path.headD "" == n)).map
    (fun l => { l with path := l.path.tail })

/-- Modelled from the spec: resolve one directory node from the leaves
of its subtree — resolve every subdirectory (whose leaves are strictly
shallower after re-rooting, bounded by `fuel`), then encode the manifest
of direct files and resolved subdirectories. -/
def processNodeAux : Nat → List Leaf → Resolved
  | 0, leaves => encode (fileEntries leaves) []
  | Nat.succ fuel, leaves =>
    encode (fileEntries leaves)
      ((dirNames leaves).map (fun n => (n, processNodeAux fuel (subLeaves leaves n))))

/-- Depth bound of a leaf set: the longest path length. -/
def maxDepth (leaves : List Leaf) : Nat :=
  leaves.foldr (fun l acc => max l.path.length acc) 0

/-- Modelled from the spec: the root node's resolved value for a fully
ingested leaf set, computed from the canonically ordered leaves. -/
def rootResolved (t : List Leaf) : Resolved :=
  processNodeAux (maxDepth (sortLeaves t)) (sortLeaves t)

/-- Modelled from the spec: `ZarrChecksumTree.process` — resolve the tree
bottom-up and format the root as `<digest>-<total_file_count>--<total_size>`. -/
def treeProcess (t : List Leaf) : String :=
  (rootResolved t).digest ++ "-" ++ toString (rootResolved t).total_file_count
    ++ "--" ++ toString (rootResolved t).total_size

/-- Modelled from the spec: `ZarrChecksumTree.add_leaf` — reject a path
already ingested with `DuplicatePathError`, else record the leaf (the
spec allows materializing nodes when processing starts, so the tree state
is the ingested leaf sequence). -/
def add_leaf (tree : List Leaf) (l : Leaf) : Except ZarrError (List Leaf) :=
  if l.path ∈ tree.map Leaf.path then .error (.duplicatePath l.path)
  else .ok (tree ++ [l])

/-- The `for file in generator: tree.add_leaf(...)` loop of
`compute_zarr_checksum`, starting from tree state `t`. -/
def ingestLeaves (t : List Leaf) : List Leaf → Except ZarrError (List Leaf)
  | [] => .ok t
  | l :: ls =>
    match add_leaf t l with
    | .error e => .error e
    | .ok t2 => ingestLeaves t2 ls

/-- `compute_zarr_checksum`: ingest every generated leaf into the tree,
then process the tree into the final digest string. -/
def compute_zarr_checksum (files : List Leaf) : Except ZarrError String :=
  match ingestLeaves [] files with
  | .error e => .error e
  | .ok t => .ok (treeProcess t)

/-- Concrete hash stand-in used by witnesses (any function of the byte
sequence will do for the MD5 primitive). -/
def md5Stub (bs : List Nat) : String := toString bs.length

/-! ### Order and sorting lemmas -/

theorem pathLe_total : ∀ (a b : List String), pathLe a b = true ∨ pathLe b a = true
  | [], _ => Or.inl rfl
  | _ :: _, [] => Or.inr rfl
  | a :: as, b :: bs => by
    rcases lt_trichotomy a b with h | h | h
    · left; simp [pathLe, h]
    · subst h
      rcases pathLe_total as bs with ih | ih
      · left; simp [pathLe, lt_irrefl, ih]
      · right; simp [pathLe, lt_irrefl, ih]
    · right; simp [pathLe, h]

theorem pathLe_trans : ∀ (a b c : List String),
    pathLe a b = true → pathLe b c = true → pathLe a c = true
  | [], _, _ => by intro _ _; rfl
  | _ :: _, [], _ => by intro h1 _; simp [pathLe] at h1
  | _ :: _, _ :: _, [] => by intro _ h2; simp [pathLe] at h2
  | a :: as, b :: bs, c :: cs => by
    intro h1 h2
    by_cases hab : a < b
    · by_cases hbc : b < c
      · simp [pathLe, lt_trans hab hbc]
      · by_cases hcb : c < b
        · simp [pathLe, hbc, hcb] at h2
        · have hbceq : b = c := le_antisymm (not_lt.mp hcb) (not_lt.mp hbc)
          subst hbceq
          simp [pathLe, hab]
    · by_cases hba : b < a
      · simp [pathLe, hab, hba] at h1
      · have habeq : a = b := le_antisymm (not_lt.mp hba) (not_lt.mp hab)
        subst habeq
        simp only [pathLe, lt_irrefl, if_false] at h1
        by_cases hac : a < c
        · simp [pathLe, hac]
        · by_cases hca : c < a
          · simp [pathLe, hac, hca] at h2
          · have haceq : a = c := le_antisymm (not_lt.mp hca) (not_lt.mp hac)
            subst haceq
            simp only [pathLe, lt_irrefl, if_false] at h2 ⊢
            exact pathLe_trans as bs cs h1 h2

theorem pathLe_antisymm : ∀ (a b : List String),
    pathLe a b = true → pathLe b a = true → a = b
  | [], [] => by intro _ _; rfl
  | [], _ :: _ => by intro _ h2; simp [pathLe] at h2
  | _ :: _, [] => by intro h1 _; simp [pathLe] at h1
  | a :: as, b :: bs => by
    intro h1 h2
    by_cases hab : a < b
    · simp [pathLe, lt_asymm hab, hab] at h2
    · by_cases hba : b < a
      · simp [pathLe, hab, hba] at h1
      · have habeq : a = b := le_antisymm (not_lt.mp hba) (not_lt.mp hab)
        subst habeq
        simp only [pathLe, lt_irrefl, if_false] at h1 h2
        rw [pathLe_antisymm as bs h1 h2]

theorem insertLeaf_perm (x : Leaf) : ∀ (l : List Leaf), (insertLeaf x l).Perm (x :: l)
  | [] => List.Perm.refl _
  | y :: ys => by
    unfold insertLeaf
    split
    · exact List.Perm.refl _
    · exact ((insertLeaf_perm x ys).cons y).trans (List.Perm.swap x y ys)

theorem sortLeaves_perm : ∀ (l : List Leaf), (sortLeaves l).Perm l
  | [] => List.Perm.refl _
  | x :: xs => by
    show (insertLeaf x (sortLeaves xs)).Perm (x :: xs)
    exact (insertLeaf_perm x _).trans ((sortLeaves_perm xs).cons x)

theorem insertLeaf_pairwise (x : Leaf) :
    ∀ (l : List Leaf), l.Pairwise (fun a b => leafLe a b = true) →
      (insertLeaf x l).Pairwise (fun a b => leafLe a b = true)
  | [], _ => by simp [insertLeaf]
  | y :: ys, h => by
    rw [List.pairwise_cons] at h
    obtain ⟨hy, hys⟩ := h
    unfold insertLeaf
    split
    case isTrue hxy =>
      rw [List.pairwise_cons]
      refine ⟨fun z hz => ?_, by rw [List.pairwise_cons]; exact ⟨hy, hys⟩⟩
      rcases List.mem_cons.mp hz with rfl | hzys
      · exact hxy
      · exact pathLe_trans _ _ _ hxy (hy z hzys)
    case isFalse hxy =>
      rw [List.pairwise_cons]
      refine ⟨fun z hz => ?_, insertLeaf_pairwise x ys hys⟩
      rcases List.mem_cons.mp ((insertLeaf_perm x ys).mem_iff.mp hz) with rfl | hzys
      · rcases pathLe_total z.path y.path with hT | hT
        · exact absurd hT hxy
        · exact hT
      · exact hy z hzys

theorem sortLeaves_pairwise : ∀ (l : List Leaf),
    (sortLeaves l).Pairwise (fun a b => leafLe a b = true)
  | [] => List.Pairwise.nil
  | x :: xs => insertLeaf_pairwise x (sortLeaves xs) (sortLeaves_pairwise xs)

theorem sortedLeafPermEq : ∀ (s1 s2 : List Leaf), s1.Perm s2 →
    s1.Pairwise (fun a b => leafLe a b = true) →
    s2.Pairwise (fun a b => leafLe a b = true) →
    (s1.map Leaf.path).Nodup → s1 = s2
  | [], s2 => fun hp _ _ _ => (List.Perm.eq_nil hp.symm).symm
  | a :: t1, [] => fun hp _ _ _ => absurd (List.Perm.eq_nil hp) (by simp)
  | a :: t1, b :: t2 => by
    intro hp hs1 hs2 hnd
    rw [List.pairwise_cons] at hs1 hs2
    obtain ⟨h1a, h1t⟩ := hs1
    obtain ⟨h2b, h2t⟩ := hs2
    rw [List.map_cons, List.nodup_cons] at hnd
    obtain ⟨hna, hnt⟩ := hnd
    have hab : a = b := by
      have haMem : a ∈ b :: t2 := hp.subset (List.mem_cons_self a t1)
      have hbMem : b ∈ a :: t1 := hp.symm.subset (List.mem_cons_self b t2)
      rcases List.mem_cons.mp haMem with h | haT2
      · exact h
      · rcases List.mem_cons.mp hbMem with h | hbT1
        · exact h.symm
        · have hpe : a.path = b.path :=
            pathLe_antisymm _ _ (h1a b hbT1) (h2b a haT2)
          exact absurd (by rw [hpe]; exact List.mem_map_of_mem Leaf.path hbT1) hna
    subst hab
    rw [sortedLeafPermEq t1 t2 hp.cons_inv h1t h2t hnt]

theorem sortLeaves_congr (l1 l2 : List Leaf) (hp : l1.Perm l2)
    (hnd : (l1.map Leaf.path).Nodup) : sortLeaves l1 = sortLeaves l2 :=
  sortedLeafPermEq _ _
    ((sortLeaves_perm l1).trans (hp.trans (sortLeaves_perm l2).symm))
    (sortLeaves_pairwise l1) (sortLeaves_pairwise l2)
    (((sortLeaves_perm l1).map Leaf.path).nodup_iff.mpr hnd)

/-! ### Ingestion lemmas -/

theorem ingestLeaves_ok : ∀ (ls t : List Leaf),
    ((t ++ ls).map Leaf.path).Nodup → ingestLeaves t ls = .ok (t ++ ls)
  | [], t => fun _ => by simp [ingestLeaves]
  | l :: ls, t => fun h => by
    have hsplit : (t.map Leaf.path ++ (l :: ls).map Leaf.path).Nodup := by
      simpa [List.map_append] using h
    have hnotin : l.path ∉ t.map Leaf.path := by
      intro hmem
      exact (List.nodup_append.mp hsplit).2.2 hmem (by simp)
    have hre : (t ++ [l]) ++ ls = t ++ l :: ls := by simp
    simp only [ingestLeaves, add_leaf, hnotin, if_false, ite_false]
    rw [ingestLeaves_ok ls (t ++ [l]) (by rw [hre]; exact h), hre]

theorem ingestLeaves_append : ∀ (a b t : List Leaf),
    ingestLeaves t (a ++ b) = (ingestLeaves t a).bind (fun t2 => ingestLeaves t2 b)
  | [], b, t => by simp [ingestLeaves, Except.bind]
  | l :: ls, b, t => by
    rw [List.cons_append]
    cases hstep : add_leaf t l with
    | error e => simp [ingestLeaves, hstep, Except.bind]
    | ok t2 => simp [ingestLeaves, hstep, ingestLeaves_append ls b t2]

/-! ### Chunked hashing lemmas -/

theorem readChunks_foldl_bounded : ∀ (n : Nat) (c : List Nat), c.length ≤ n →
    ∀ acc, (readChunks c).foldl md5Update acc = acc ++ c
  | 0, c => by
    intro hc acc
    have hnil : c = [] := List.length_eq_zero.mp (Nat.le_zero.mp hc)
    subst hnil
    simp [readChunks]
  | Nat.succ n, [] => by intro _ _; simp [readChunks]
  | Nat.succ n, x :: xs => by
    intro hc acc
    rw [readChunks]
    simp only [List.foldl_cons]
    rw [readChunks_foldl_bounded n ((x :: xs).drop 8192)
      (by simp only [List.length_drop, List.length_cons]
          simp only [List.length_cons] at hc
          omega)]
    show (acc ++ (x :: xs).take 8192) ++ (x :: xs).drop 8192 = acc ++ (x :: xs)
    rw [List.append_assoc, List.take_append_drop]

theorem fileDigest_eq (md5Hex : List Nat → String) (c : List Nat) :
    fileDigest md5Hex c = md5Hex c := by
  unfold fileDigest md5Init
  rw [readChunks_foldl_bounded c.length c (le_refl _) [], List.nil_append]

/-! ### Listing and filter lemmas -/

theorem filter_nil_mem {α : Type} {p : α → Bool} :
    ∀ {l : List α}, l.filter p = [] → ∀ a ∈ l, p a = false
  | [], _ => by intro a ha; cases ha
  | x :: xs, h => by
    intro a ha
    by_cases hx : p x = true
    · rw [List.filter_cons_of_pos hx] at h
      cases h
    · rw [List.filter_cons_of_neg (by simpa using hx)] at h
      rcases List.mem_cons.mp ha with rfl | ha2
      · simpa using hx
      · exact filter_nil_mem h a ha2

theorem filter_eq_nil_of {α : Type} {p : α → Bool} :
    ∀ {l : List α}, (∀ a ∈ l, p a = false) → l.filter p = []
  | [], _ => rfl
  | x :: xs, h => by
    rw [List.filter_cons_of_neg (by simp [h x (by simp)]),
      filter_eq_nil_of (fun a ha => h a (List.mem_cons_of_mem x ha))]

theorem startsList_refl : ∀ (l : List Char), startsList l l = true
  | [] => rfl
  | c :: cs => by simp [startsList, startsList_refl cs]

theorem startsList_append : ∀ (l t : List Char), startsList l (l ++ t) = true
  | [], _ => rfl
  | c :: cs, t => by simp [startsList, startsList_append cs t]

theorem startsList_trans : ∀ (a b c : List Char),
    startsList a b = true → startsList b c = true → startsList a c = true
  | [], _, _ => by intro _ _; rfl
  | _ :: _, [], _ => by intro h1 _; simp [startsList] at h1
  | _ :: _, _ :: _, [] => by intro _ h2; simp [startsList] at h2
  | a :: as, b :: bs, c :: cs => by
    intro h1 h2
    simp only [startsList, Bool.and_eq_true, beq_iff_eq] at h1 h2 ⊢
    exact ⟨h1.1.trans h2.1, startsList_trans as bs cs h1.2 h2.2⟩

theorem strStarts_joinEmpty (p : String) : strStarts p (joinEmpty p) = true := by
  unfold joinEmpty strStarts
  split
  · next hp => subst hp; exact startsList_refl _
  · split
    · exact startsList_refl _
    · cases p with
      | mk data =>
        show startsList data (String.mk data ++ String.mk ['/']).data = true
        show startsList data (data ++ ['/']) = true
        exact startsList_append data ['/']

theorem exceptMap_ok_mem {α β ε : Type} (f : α → Except ε β) :
    ∀ (l : List α) (ys : List β), exceptMap f l = .ok ys →
      ∀ y ∈ ys, ∃ x ∈ l, f x = .ok y
  | [], ys => by
    intro h y hy
    simp only [exceptMap, Except.ok.injEq] at h
    subst h
    cases hy
  | x :: xs, ys => by
    intro h y hy
    cases hfx : f x with
    | error e => simp [exceptMap, hfx] at h
    | ok y0 =>
      cases hrest : exceptMap f xs with
      | error e => simp [exceptMap, hfx, hrest] at h
      | ok ys0 =>
        simp only [exceptMap, hfx, hrest, Except.ok.injEq] at h
        subst h
        rcases List.mem_cons.mp hy with rfl | hy2
        · exact ⟨x, by simp, hfx⟩
        · obtain ⟨x2, hx2, hfx2⟩ := exceptMap_ok_mem f xs ys0 hrest y hy2
          exact ⟨x2, List.mem_cons_of_mem x hx2, hfx2⟩

theorem pathParse_no_dot (s : String) (seg : String) (h : seg ∈ (pathParse s).parts) :
    seg ≠ "" ∧ seg ≠ "." := by
  unfold pathParse at h
  simp only at h
  have := (List.mem_filter.mp h).2
  simp only [Bool.not_eq_true', Bool.or_eq_false_iff, beq_eq_false_iff_ne] at this
  exact this

/-! ### Claim theorems -/

/-- C1: for every finite set of leaf records with pairwise-distinct paths,
`compute_zarr_checksum` returns the same root digest string on every
permutation of the order in which the records are produced. -/
theorem compute_zarr_checksum_perm_invariant (l1 l2 : List Leaf) (hp : l1.Perm l2)
    (hnd : (l1.map Leaf.path).Nodup) :
    compute_zarr_checksum l1 = compute_zarr_checksum l2 := by
  have hnd2 : (l2.map Leaf.path).Nodup := ((hp.map Leaf.path).nodup_iff).mp hnd
  have h1 : ingestLeaves [] l1 = .ok l1 := ingestLeaves_ok l1 [] (by simpa using hnd)
  have h2 : ingestLeaves [] l2 = .ok l2 := ingestLeaves_ok l2 [] (by simpa using hnd2)
  have hs : sortLeaves l1 = sortLeaves l2 := sortLeaves_congr l1 l2 hp hnd
  simp [compute_zarr_checksum, h1, h2, treeProcess, rootResolved, hs]

theorem compute_zarr_checksum_perm_invariant_witness :
    compute_zarr_checksum [⟨["a"], 1, "d1"⟩, ⟨["b"], 2, "d2"⟩]
      = compute_zarr_checksum [⟨["b"], 2, "d2"⟩, ⟨["a"], 1, "d1"⟩] :=
  compute_zarr_checksum_perm_invariant _ _ (by decide) (by decide)

/-- C2: an input sequence containing a second leaf with an already-ingested
path fails with `DuplicatePathError` at that very `add_leaf` call — the
ingestion loop already fails on the prefix ending at the duplicate,
whatever comes after it — and the run produces an error, not a digest. -/
theorem compute_zarr_checksum_duplicate_path (l1 : List Leaf) (x : Leaf) (l2 : List Leaf)
    (hnd : (l1.map Leaf.path).Nodup) (hx : x.path ∈ l1.map Leaf.path) :
    ingestLeaves [] (l1 ++ [x]) = .error (.duplicatePath x.path) ∧
    compute_zarr_checksum (l1 ++ x :: l2) = .error (.duplicatePath x.path) := by
  have h1 : ingestLeaves [] l1 = .ok l1 := ingestLeaves_ok l1 [] (by simpa using hnd)
  have hstep : add_leaf l1 x = .error (.duplicatePath x.path) := by simp [add_leaf, hx]
  have hmid : ∀ l2', ingestLeaves [] (l1 ++ x :: l2') = .error (.duplicatePath x.path) := by
    intro l2'
    rw [ingestLeaves_append l1 (x :: l2') [], h1]
    simp [Except.bind, ingestLeaves, hstep]
  exact ⟨hmid [], by simp [compute_zarr_checksum, hmid l2]⟩

theorem compute_zarr_checksum_duplicate_path_witness :
    ingestLeaves [] ([⟨["a"], 1, "d1"⟩] ++ [⟨["a"], 2, "d2"⟩])
      = .error (.duplicatePath ["a"]) ∧
    compute_zarr_checksum ([⟨["a"], 1, "d1"⟩] ++ ⟨["a"], 2, "d2"⟩ :: [])
      = .error (.duplicatePath ["a"]) :=
  compute_zarr_checksum_duplicate_path [⟨["a"], 1, "d1"⟩] ⟨["a"], 2, "d2"⟩ []
    (by decide) (by decide)

/-- C3: `compute_zarr_checksum` on an empty generator succeeds with the
fixed empty-store digest string, and the root aggregates are
`total_size = 0` and `total_file_count = 0`. -/
theorem compute_zarr_checksum_empty :
    compute_zarr_checksum [] = .ok "v1|-0--0" ∧
    (rootResolved []).total_size = 0 ∧ (rootResolved []).total_file_count = 0 :=
  ⟨by decide, rfl, rfl⟩

/-- C5: when the root exists, every record yielded by `yield_files_local`
carries the digest obtained by applying the hash primitive once to the
file's entire raw byte content (the streamed 8192-byte-chunk updates
amount to exactly that), and a size equal to the file's byte count. -/
theorem yield_files_local_digest_size (md5Hex : List Nat → String) (d : LocalStore)
    (h : d.present = true) :
    yield_files_local md5Hex d = .ok (d.files.map (fun pc =>
      { path := pathParse pc.1, size := pc.2.length, digest := md5Hex pc.2 })) := by
  simp [yield_files_local, h, fileDigest_eq]

theorem yield_files_local_digest_size_witness :
    yield_files_local md5Stub ⟨true, [("a/0", [1, 2, 3])]⟩
      = .ok [{ path := pathParse "a/0", size := 3, digest := md5Stub [1, 2, 3] }] :=
  yield_files_local_digest_size md5Stub ⟨true, [("a/0", [1, 2, 3])]⟩ rfl

/-- C6: on a directory whose path does not exist, `yield_files_local`
fails with the "Path does not exist" error and yields no records. -/
theorem yield_files_local_missing_path (md5Hex : List Nat → String) (d : LocalStore)
    (h : d.present = false) :
    yield_files_local md5Hex d = .error (.exception "Path does not exist") := by
  simp [yield_files_local, h]

theorem yield_files_local_missing_path_witness :
    yield_files_local md5Stub ⟨false, []⟩ = .error (.exception "Path does not exist") :=
  yield_files_local_missing_path md5Stub ⟨false, []⟩ rfl

/-- C8: calling the generator function `yield_files_local` never raises at
call time — it returns a generator object whose body holds the existence
check — and for a nonexistent path the deferred body raises the "Path
does not exist" error on first iteration. -/
theorem yield_files_local_deferred_check (md5Hex : List Nat → String) (d : LocalStore)
    (h : d.present = false) :
    yield_files_local_gen md5Hex d = .ok { run := yield_files_local md5Hex d } ∧
    yield_files_local md5Hex d = .error (.exception "Path does not exist") :=
  ⟨rfl, by simp [yield_files_local, h]⟩

theorem yield_files_local_deferred_check_witness :
    yield_files_local_gen md5Stub ⟨false, [("a/0", [1])]⟩
      = .ok { run := yield_files_local md5Stub ⟨false, [("a/0", [1])]⟩ } ∧
    yield_files_local md5Stub ⟨false, [("a/0", [1])]⟩
      = .error (.exception "Path does not exist") :=
  yield_files_local_deferred_check md5Stub ⟨false, [("a/0", [1])]⟩ rfl

/-- C7: when no object of the bucket lies under the given prefix,
`yield_files_s3` prints the warning and yields the empty sequence,
terminating normally. -/
theorem yield_files_s3_no_objects_warns (objects : List S3Object) (pfx : String)
    (h : objects.filter (fun o => strStarts pfx o.key) = []) :
    yield_files_s3 objects pfx = { warned := true, result := .ok [] } := by
  have hall : ∀ o ∈ objects, strStarts pfx o.key = false := filter_nil_mem h
  have hprobe : objects.filter (fun o => strStarts (joinEmpty pfx) o.key) = [] := by
    refine filter_eq_nil_of (fun o ho => ?_)
    cases hx : strStarts (joinEmpty pfx) o.key with
    | false => rfl
    | true =>
      have h2 : strStarts pfx o.key = true :=
        startsList_trans _ _ _ (strStarts_joinEmpty pfx) hx
      rw [hall o ho] at h2
      cases h2
  unfold yield_files_s3
  rw [hprobe]
  simp

theorem yield_files_s3_no_objects_warns_witness :
    yield_files_s3 [⟨"bar", 1, "e"⟩] "foo" = { warned := true, result := .ok [] } :=
  yield_files_s3_no_objects_warns [⟨"bar", 1, "e"⟩] "foo" (by decide)

/-- C9: every record yielded by `yield_files_s3` takes its digest verbatim
from the listed object's ETag with surrounding double quotes stripped (and
its size from the listing) — nothing is recomputed from object content. -/
theorem yield_files_s3_digest_is_etag (objects : List S3Object) (pfx : String)
    (w : Bool) (files : List ChecksummedFile)
    (h : yield_files_s3 objects pfx = { warned := w, result := .ok files }) :
    ∀ cf ∈ files, ∃ o ∈ objects, strStarts pfx o.key = true ∧
      cf.digest = stripQuotes o.etag ∧ cf.size = o.size := by
  intro cf hcf
  unfold yield_files_s3 at h
  split at h
  · simp only [S3Run.mk.injEq, Except.ok.injEq] at h
    rw [← h.2] at hcf
    cases hcf
  · simp only [S3Run.mk.injEq] at h
    obtain ⟨-, hmap⟩ := h
    obtain ⟨o, ho, hfo⟩ := exceptMap_ok_mem _ _ _ hmap cf hcf
    have hofil := List.mem_filter.mp ho
    unfold s3File at hfo
    cases hrel : relativeTo (pathParse o.key) (pathParse pfx) with
    | error e => rw [hrel] at hfo; cases hfo
    | ok p =>
      rw [hrel] at hfo
      injection hfo with hfo
      exact ⟨o, hofil.1, hofil.2, by rw [← hfo], by rw [← hfo]⟩

theorem yield_files_s3_digest_is_etag_witness :
    ∃ o ∈ [(⟨"foo/a", 5, "\"abc-3\""⟩ : S3Object)], strStarts "foo" o.key = true ∧
      ("abc-3" : String) = stripQuotes o.etag ∧ (5 : Nat) = o.size :=
  yield_files_s3_digest_is_etag [⟨"foo/a", 5, "\"abc-3\""⟩] "foo" false
    [{ path := { absolute := false, parts := ["a"] }, size := 5, digest := "abc-3" }]
    (by decide)
    { path := { absolute := false, parts := ["a"] }, size := 5, digest := "abc-3" }
    (by decide)

/-- C10: the existence probe lists under the prefix joined with a trailing
slash, but the main listing uses the raw prefix, so a key that extends the
prefix string without being inside that directory passes the probe run and
then makes `Path.relative_to` raise an unhandled `ValueError`: concretely,
keys `"foo/a"` and `"foobar"` under prefix `"foo"`. -/
theorem yield_files_s3_probe_mismatch_error :
    yield_files_s3 [⟨"foo/a", 1, "ea"⟩, ⟨"foobar", 2, "eb"⟩] "foo"
      = { warned := false, result := .error .valueError } := by
  decide

/-- C4 as stated is false: a listed key containing a `..` segment is not
normalized away — the yielded path keeps the `..` segment. -/
theorem yield_files_s3_dotdot_counterexample :
    (yield_files_s3 [⟨"foo/../secret", 1, "e"⟩] "foo").result
      = .ok [{ path := { absolute := false, parts := ["..", "secret"] },
               size := 1, digest := "e" }] ∧
    ".." ∈ ({ absolute := false, parts := ["..", "secret"] } : PurePath).parts := by
  exact ⟨by decide, by decide⟩

/-- C4 amended: every record yielded by `yield_files_s3` carries a path
relative to the prefix with no leading separator and no `.` segments;
freedom from `..` segments holds provided no listed key contains a `..`
segment (pathlib preserves `..`, so it is not guaranteed in general). -/
theorem yield_files_s3_path_shape (objects : List S3Object) (pfx : String)
    (w : Bool) (files : List ChecksummedFile)
    (h : yield_files_s3 objects pfx = { warned := w, result := .ok files }) :
    ∀ cf ∈ files, cf.path.absolute = false ∧ "." ∉ cf.path.parts ∧
      ((∀ o ∈ objects, ".." ∉ (pathParse o.key).parts) → ".." ∉ cf.path.parts) := by
  intro cf hcf
  unfold yield_files_s3 at h
  split at h
  · simp only [S3Run.mk.injEq, Except.ok.injEq] at h
    rw [← h.2] at hcf
    cases hcf
  · simp only [S3Run.mk.injEq] at h
    obtain ⟨-, hmap⟩ := h
    obtain ⟨o, ho, hfo⟩ := exceptMap_ok_mem _ _ _ hmap cf hcf
    have hobj : o ∈ objects := (List.mem_filter.mp ho).1
    unfold s3File at hfo
    cases hrel : relativeTo (pathParse o.key) (pathParse pfx) with
    | error e => rw [hrel] at hfo; cases hfo
    | ok p =>
      rw [hrel] at hfo
      injection hfo with hfo
      unfold relativeTo at hrel
      split at hrel
      · injection hrel with hrel
        rw [← hfo, ← hrel]
        refine ⟨rfl, fun hmem => ?_, fun hall hmem => ?_⟩
        · exact (pathParse_no_dot o.key "." (List.drop_subset _ _ hmem)).2 rfl
        · exact hall o hobj (List.drop_subset _ _ hmem)
      · cases hrel

theorem yield_files_s3_path_shape_witness :
    ({ absolute := false, parts := ["a.txt"] } : PurePath).absolute = false ∧
    "." ∉ ({ absolute := false, parts := ["a.txt"] } : PurePath).parts ∧
    ((∀ o ∈ [(⟨"foo/a.txt", 3, "e"⟩ : S3Object)], ".." ∉ (pathParse o.key).parts) →
      ".." ∉ ({ absolute := false, parts := ["a.txt"] } : PurePath).parts) :=
  yield_files_s3_path_shape [⟨"foo/a.txt", 3, "e"⟩] "foo" false
    [{ path := { absolute := false, parts := ["a.txt"] }, size := 3, digest := "e" }]
    (by decide)
    { path := { absolute := false, parts := ["a.txt"] }, size := 3, digest := "e" }
    (by decide)
